import Mathlib

/-!
Verification of the fastify-zod request-validation middleware.

The definitions below are a shallow embedding of the repository's source:
`src/lib/utils.ts` (formatErrors, isZodError, reject, multiPathError),
`src/core/check.ts` (check / runChecks), `src/core/functions.ts` (the plugin
preHandler hook and option defaults), `src/core/schema-validation.ts`
(schemaValidation) and `src/core/define-route.ts` (the fluent route builder).

JavaScript objects are modelled as insertion-ordered association lists over
`String` keys: assigning an existing key updates its value in place, assigning
a fresh key appends it at the end, which matches both `obj[k] = v` and
`{ ...obj, [k]: v }` on plain objects.
-/

namespace FastifyZod

/-! ### Association lists with JavaScript object semantics -/

def lookupKey {α : Type} (m : List (String × α)) (k : String) : Option α :=
  (m.find? (fun p => p.1 == k)).map Prod.snd

def setKey {α : Type} : List (String × α) → String → α → List (String × α)
  | [], k, v => [(k, v)]
  | (k', v') :: rest, k, v =>
      if k' = k then (k, v) :: rest else (k', v') :: setKey rest k v

theorem lookupKey_nil {α : Type} (k : String) :
    lookupKey ([] : List (String × α)) k = none := rfl

theorem lookupKey_cons {α : Type} (k' k : String) (v : α) (m : List (String × α)) :
    lookupKey ((k', v) :: m) k = if k' = k then some v else lookupKey m k := by
  by_cases h : k' = k <;> simp [lookupKey, List.find?_cons, h]

theorem lookupKey_setKey_self {α : Type} (m : List (String × α)) (k : String) (v : α) :
    lookupKey (setKey m k v) k = some v := by
  induction m with
  | nil => simp [setKey, lookupKey_cons]
  | cons p rest ih =>
      rcases p with ⟨pk, pv⟩
      by_cases h : pk = k
      · simp [setKey, h, lookupKey_cons]
      · rw [setKey, if_neg h, lookupKey_cons, if_neg h, ih]

theorem lookupKey_setKey_ne {α : Type} (m : List (String × α)) (k k' : String) (v : α)
    (h : k' ≠ k) : lookupKey (setKey m k v) k' = lookupKey m k' := by
  induction m with
  | nil =>
      rw [setKey, lookupKey_cons, if_neg (Ne.symm h), lookupKey_nil]
  | cons p rest ih =>
      rcases p with ⟨pk, pv⟩
      by_cases hp : pk = k
      · subst hp
        rw [setKey, if_pos rfl, lookupKey_cons, if_neg (Ne.symm h), lookupKey_cons,
          if_neg (Ne.symm h)]
      · rw [setKey, if_neg hp, lookupKey_cons, lookupKey_cons, ih]

theorem lookupKey_isSome_iff_mem {α : Type} (m : List (String × α)) (k : String) :
    (lookupKey m k).isSome ↔ k ∈ m.map Prod.fst := by
  induction m with
  | nil => simp [lookupKey]
  | cons p rest ih =>
      rcases p with ⟨pk, pv⟩
      rw [lookupKey_cons]
      by_cases h : pk = k
      · simp [h]
      · simp only [if_neg h, ih, List.map_cons, List.mem_cons]
        constructor
        · exact Or.inr
        · rintro (hk | hk)
          · exact absurd hk.symm h
          · exact hk

/-- One step of the `simple` accumulator of `formatErrors`:
`if (!acc[path]) { acc[path] = []; } acc[path].push(issue.message)`.
A present entry is never falsy (it is a non-empty array), so the message is
appended to the existing list; a missing key is initialised and appended at
the end of the object. -/
def pushKey : List (String × List String) → String → String → List (String × List String)
  | [], k, v => [(k, [v])]
  | (k', l) :: rest, k, v =>
      if k' = k then (k', l ++ [v]) :: rest else (k', l) :: pushKey rest k v

theorem lookupKey_pushKey_self (m : List (String × List String)) (k : String) (v : String) :
    lookupKey (pushKey m k v) k = some ((lookupKey m k).getD [] ++ [v]) := by
  induction m with
  | nil => simp [pushKey, lookupKey_cons, lookupKey_nil]
  | cons p rest ih =>
      rcases p with ⟨pk, pl⟩
      by_cases h : pk = k
      · simp [pushKey, h, lookupKey_cons]
      · rw [pushKey, if_neg h, lookupKey_cons, if_neg h, ih, lookupKey_cons, if_neg h]

theorem lookupKey_pushKey_ne (m : List (String × List String)) (k k' : String) (v : String)
    (h : k' ≠ k) : lookupKey (pushKey m k v) k' = lookupKey m k' := by
  induction m with
  | nil =>
      rw [pushKey, lookupKey_cons, if_neg (Ne.symm h), lookupKey_nil]
  | cons p rest ih =>
      rcases p with ⟨pk, pl⟩
      by_cases hp : pk = k
      · subst hp
        rw [pushKey, if_pos rfl, lookupKey_cons, if_neg (Ne.symm h), lookupKey_cons,
          if_neg (Ne.symm h)]
      · rw [pushKey, if_neg hp, lookupKey_cons, lookupKey_cons, ih]

/-! ### ErrorFormatter: `formatErrors` from `src/lib/utils.ts`

A Zod issue carries a `path` whose segments are strings or numbers, and a
`message`.  `issue.path.join(".")` renders the segments separated by dots;
the JS expression `issue.path.join(".") || "_root"` yields `"_root"` exactly
when the joined string is `""` (the only falsy string). -/

inductive Seg where
  | s (v : String)
  | n (v : Int)
  deriving Repr, DecidableEq

def Seg.render : Seg → String
  | .s v => v
  | .n v => toString v

structure Issue where
  path : List Seg
  message : String
  deriving Repr, DecidableEq

def pathKey (p : List Seg) : String :=
  let d := String.intercalate "." (p.map Seg.render)
  if d = "" then "_root" else d

/-- The `flat` branch of `formatErrors`:
`issues.reduce((acc, issue) => ({ ...acc, [path]: issue.message }), {})`. -/
def flatAcc (issues : List Issue) : List (String × String) :=
  issues.foldl (fun acc i => setKey acc (pathKey i.path) i.message) []

/-- The default `simple` branch of `formatErrors`. -/
def simpleAcc (issues : List Issue) : List (String × List String) :=
  issues.foldl (fun acc i => pushKey acc (pathKey i.path) i.message) []

inductive Formatted where
  | flat (entries : List (String × String))
  | detailed (issues : List Issue)
  | simple (entries : List (String × List String))
  deriving Repr, DecidableEq

/-- `formatErrors(issues, format)` from `src/lib/utils.ts`: `flat` and
`detailed` are matched explicitly; every other format value falls through to
the default `simple` accumulator. -/
def formatErrors (issues : List Issue) (format : String) : Formatted :=
  if format = "flat" then .flat (flatAcc issues)
  else if format = "detailed" then .detailed issues
  else .simple (simpleAcc issues)

/-- The message of the last issue whose rendered path key is `k`. -/
def lastMessageFor (issues : List Issue) (k : String) : Option String :=
  (issues.reverse.find? (fun i => pathKey i.path == k)).map Issue.message

/-- All messages of issues whose rendered path key is `k`, in issue order. -/
def messagesFor (issues : List Issue) (k : String) : List String :=
  (issues.filter (fun i => pathKey i.path == k)).map Issue.message

theorem flatAcc_append (issues : List Issue) (i : Issue) :
    flatAcc (issues ++ [i]) = setKey (flatAcc issues) (pathKey i.path) i.message := by
  simp [flatAcc, List.foldl_append]

theorem simpleAcc_append (issues : List Issue) (i : Issue) :
    simpleAcc (issues ++ [i]) = pushKey (simpleAcc issues) (pathKey i.path) i.message := by
  simp [simpleAcc, List.foldl_append]

theorem lastMessageFor_append (issues : List Issue) (i : Issue) (k : String) :
    lastMessageFor (issues ++ [i]) k =
      if pathKey i.path = k then some i.message else lastMessageFor issues k := by
  by_cases h : pathKey i.path = k
  · simp [lastMessageFor, List.find?_cons, h]
  · simp [lastMessageFor, List.find?_cons, h, beq_eq_false_iff_ne.mpr h]

theorem messagesFor_append (issues : List Issue) (i : Issue) (k : String) :
    messagesFor (issues ++ [i]) k =
      messagesFor issues k ++ (if pathKey i.path = k then [i.message] else []) := by
  by_cases h : pathKey i.path = k
  · simp [messagesFor, List.filter_append, List.filter_cons, h]
  · simp [messagesFor, List.filter_append, List.filter_cons, h, beq_eq_false_iff_ne.mpr h]

theorem lookupKey_flatAcc (issues : List Issue) (k : String) :
    lookupKey (flatAcc issues) k = lastMessageFor issues k := by
  induction issues using List.reverseRecOn with
  | nil => rfl
  | append_singleton issues i ih =>
      rw [flatAcc_append, lastMessageFor_append]
      by_cases h : pathKey i.path = k
      · rw [if_pos h, ← h, lookupKey_setKey_self]
      · rw [if_neg h, lookupKey_setKey_ne _ _ _ _ (Ne.symm h), ih]

theorem lookupKey_simpleAcc (issues : List Issue) (k : String) :
    lookupKey (simpleAcc issues) k =
      if messagesFor issues k = [] then none else some (messagesFor issues k) := by
  induction issues using List.reverseRecOn with
  | nil => rfl
  | append_singleton issues i ih =>
      rw [simpleAcc_append, messagesFor_append]
      by_cases h : pathKey i.path = k
      · rw [if_pos h, ← h, lookupKey_pushKey_self, h, ih]
        by_cases hm : messagesFor issues k = []
        · simp [hm]
        · simp [hm]
      · rw [if_neg h, lookupKey_pushKey_ne _ _ _ _ (Ne.symm h), ih, List.append_nil]

theorem lastMessageFor_isSome_iff (issues : List Issue) (k : String) :
    (lastMessageFor issues k).isSome ↔ k ∈ issues.map (fun i => pathKey i.path) := by
  rw [lastMessageFor]
  cases hf : List.find? (fun i => pathKey i.path == k) issues.reverse with
  | none =>
      simp only [Option.map_none', Option.isSome_none, Bool.false_eq_true, false_iff]
      intro hk
      rcases List.mem_map.mp hk with ⟨i, hi, hp⟩
      have := List.find?_eq_none.mp hf i (List.mem_reverse.mpr hi)
      exact this (beq_iff_eq.mpr hp)
  | some i =>
      simp only [Option.map_some', Option.isSome_some, eq_self_iff_true, true_iff]
      have hmem := List.mem_reverse.mp (List.mem_of_find?_eq_some hf)
      have hp := List.find?_some hf
      exact List.mem_map.mpr ⟨i, hmem, beq_iff_eq.mp hp⟩

theorem messagesFor_eq_nil_iff (issues : List Issue) (k : String) :
    messagesFor issues k = [] ↔ k ∉ issues.map (fun i => pathKey i.path) := by
  rw [messagesFor, List.map_eq_nil_iff, List.filter_eq_nil_iff]
  constructor
  · intro h hk
    rcases List.mem_map.mp hk with ⟨i, hi, hp⟩
    exact h i hi (beq_iff_eq.mpr hp)
  · intro h i hi hp
    exact h (List.mem_map.mpr ⟨i, hi, beq_iff_eq.mp hp⟩)

/-- C5: for every issue list, `formatErrors` in `flat` mode maps each rendered
dotted path key (`_root` when the joined path renders empty, in particular for
the empty path) to the last message seen for that key; `simple` mode maps each
key to the ordered list of all messages for that key; and both modes have an
entry for a key exactly when some issue in the list renders to that key —
no key is invented or dropped. -/
theorem C5_formatErrors_flat_simple (issues : List Issue) (k : String) :
    pathKey [] = "_root"
    ∧ formatErrors issues "flat" = .flat (flatAcc issues)
    ∧ formatErrors issues "simple" = .simple (simpleAcc issues)
    ∧ lookupKey (flatAcc issues) k = lastMessageFor issues k
    ∧ lookupKey (simpleAcc issues) k =
        (if messagesFor issues k = [] then none else some (messagesFor issues k))
    ∧ ((lookupKey (flatAcc issues) k).isSome ↔ k ∈ issues.map (fun i => pathKey i.path))
    ∧ ((lookupKey (simpleAcc issues) k).isSome ↔ k ∈ issues.map (fun i => pathKey i.path)) := by
  refine ⟨rfl, rfl, rfl, lookupKey_flatAcc issues k, lookupKey_simpleAcc issues k, ?_, ?_⟩
  · rw [lookupKey_flatAcc issues k]
    exact lastMessageFor_isSome_iff issues k
  · rw [lookupKey_simpleAcc issues k]
    by_cases hm : messagesFor issues k = []
    · simp only [if_pos hm, Option.isSome_none, Bool.false_eq_true, false_iff]
      exact (messagesFor_eq_nil_iff issues k).mp hm
    · simp only [if_neg hm, Option.isSome_some, eq_self_iff_true, true_iff]
      by_contra hk
      exact hm ((messagesFor_eq_nil_iff issues k).mpr hk)

/-- C8: for every format value other than `flat` and `detailed` — any
unrecognized string included — `formatErrors` returns the `simple`-mode
result. -/
theorem C8_unrecognized_format_falls_back (issues : List Issue) (format : String)
    (h1 : format ≠ "flat") (h2 : format ≠ "detailed") :
    formatErrors issues format = formatErrors issues "simple" := by
  rw [formatErrors, if_neg h1, if_neg h2, formatErrors]
  rw [if_neg (by decide : ¬("simple" : String) = "flat"),
    if_neg (by decide : ¬("simple" : String) = "detailed")]

/-- C8 witness: the unrecognized format value `"compact"` yields the
`simple`-mode result on a concrete issue list. -/
theorem C8_unrecognized_format_falls_back_witness :
    ("compact" : String) ≠ "flat" ∧ ("compact" : String) ≠ "detailed"
    ∧ formatErrors [⟨[Seg.s "a"], "bad"⟩] "compact" = formatErrors [⟨[Seg.s "a"], "bad"⟩] "simple" :=
  ⟨by decide, by decide,
    C8_unrecognized_format_falls_back [⟨[Seg.s "a"], "bad"⟩] "compact" (by decide) (by decide)⟩

/-! ### JavaScript values

`JVal` models the JavaScript values flowing through the pipeline: request
fields, check-result entries and thrown values.  Objects are association
lists of own properties. -/

inductive JVal where
  | vnull
  | vundefined
  | str (s : String)
  | num (n : Int)
  | boolean (b : Bool)
  | arr (elems : List JVal)
  | obj (fields : List (String × JVal))

/-- JavaScript truthiness: the falsy values are `null`, `undefined`, `""`,
`0`, `false` (and `NaN`, not modelled); every object and array is truthy. -/
def jsFalsy : JVal → Bool
  | .vnull => true
  | .vundefined => true
  | .str s => s == ""
  | .num n => decide (n = 0)
  | .boolean b => !b
  | .arr _ => false
  | .obj _ => false

/-- JS `k.startsWith("_")`. -/
def jsStartsWithUnderscore (k : String) : Bool :=
  match k.data with
  | [] => false
  | c :: _ => c == '_'

def removeFirstUnderscoreAux : List Char → List Char
  | [] => []
  | c :: cs => if c = '_' then cs else c :: removeFirstUnderscoreAux cs

/-- JS `k.replace("_", "")` with a plain-string pattern: removes the first
occurrence of `_` anywhere in `k` (and leaves `k` unchanged if there is
none). -/
def jsRemoveFirstUnderscore (k : String) : String :=
  ⟨removeFirstUnderscoreAux k.data⟩

/-- The string `k` with `_` prepended; `jsRemoveFirstUnderscore` inverts it on
underscore-prefixed keys. -/
def underscoreName (n : String) : String :=
  ⟨'_' :: n.data⟩

theorem jsStartsWithUnderscore_underscoreName (n : String) :
    jsStartsWithUnderscore (underscoreName n) = true := rfl

theorem jsRemoveFirstUnderscore_underscoreName (n : String) :
    jsRemoveFirstUnderscore (underscoreName n) = n := by
  cases n with
  | mk d => simp [jsRemoveFirstUnderscore, underscoreName, removeFirstUnderscoreAux]

theorem underscoreName_of_starts (k : String) (h : jsStartsWithUnderscore k = true) :
    underscoreName (jsRemoveFirstUnderscore k) = k := by
  cases k with
  | mk d =>
      cases d with
      | nil => exact absurd h (by simp [jsStartsWithUnderscore])
      | cons c t =>
          have hc : c = '_' := by
            have := h
            simp only [jsStartsWithUnderscore, beq_iff_eq] at this
            exact this
          subst hc
          simp [underscoreName, jsRemoveFirstUnderscore, removeFirstUnderscoreAux]

theorem jsRemoveFirstUnderscore_data_of_starts (k : String)
    (h : jsStartsWithUnderscore k = true) :
    (jsRemoveFirstUnderscore k).data = k.data.tail := by
  cases k with
  | mk d =>
      cases d with
      | nil => exact absurd h (by simp [jsStartsWithUnderscore])
      | cons c t =>
          have hc : c = '_' := by
            have := h
            simp only [jsStartsWithUnderscore, beq_iff_eq] at this
            exact this
          subst hc
          simp [jsRemoveFirstUnderscore, removeFirstUnderscoreAux]

theorem underscoreName_inj {a b : String} (h : underscoreName a = underscoreName b) :
    a = b := by
  have hd : '_' :: a.data = '_' :: b.data := congrArg String.data h
  have hdata : a.data = b.data := by injection hd
  cases a with
  | mk da =>
      cases b with
      | mk db => exact congrArg String.mk hdata

theorem ne_underscoreName_of_not_starts (k n : String)
    (h : jsStartsWithUnderscore k = false) : k ≠ underscoreName n := by
  intro hk
  rw [hk, jsStartsWithUnderscore_underscoreName] at h
  exact Bool.noConfusion h

theorem underscoreName_errors : underscoreName "errors" = "_errors" := rfl

/-! ### CheckRunner: the merge loop of `check` in `src/core/check.ts`

For each `[k, v]` of a check result:
`if (k.startsWith("_")) { errorsObject[k.replace("_", "")] = v; }
 else { if (!errorsObject.errors) { errorsObject.errors = {}; }
        errorsObject.errors[k] = v; }`.
In the `else` branch, a missing or falsy `errors` slot is re-initialised to a
fresh empty object before the indexed assignment.  When `errors` holds a
truthy primitive (reachable only through a promoted `_errors` key), the
indexed assignment targets a primitive value: the source is a strict-mode ES
module, so that assignment throws a TypeError, which aborts the merge loop
and rejects `check`'s promise.  `Except Unit` tracks that TypeError. -/

def mergeEntry (acc : List (String × JVal)) (k : String) (v : JVal) :
    Except Unit (List (String × JVal)) :=
  if jsStartsWithUnderscore k then
    .ok (setKey acc (jsRemoveFirstUnderscore k) v)
  else
    match lookupKey acc "errors" with
    | some (JVal.obj fs) =>
        -- truthy object in the `errors` slot: `errorsObject.errors[k] = v`
        .ok (setKey acc "errors" (JVal.obj (setKey fs k v)))
    | some w =>
        if jsFalsy w then
          -- `!errorsObject.errors` → `errorsObject.errors = {}`, then the
          -- indexed assignment lands on the object just stored
          .ok (setKey (setKey acc "errors" (JVal.obj [])) "errors"
            (JVal.obj (setKey [] k v)))
        else
          -- truthy primitive in the slot: the indexed assignment throws
          -- `TypeError: Cannot create property ... on string`
          .error ()
    | none =>
        .ok (setKey (setKey acc "errors" (JVal.obj [])) "errors"
          (JVal.obj (setKey [] k v)))

/-- The merge loop over a flattened sequence of result entries: a TypeError
thrown by any entry aborts the remaining entries. -/
def mergeEntriesFrom : List (String × JVal) → List (String × JVal) →
    Except Unit (List (String × JVal))
  | acc, [] => .ok acc
  | acc, kv :: rest =>
      match mergeEntry acc kv.1 kv.2 with
      | .error u => .error u
      | .ok acc2 => mergeEntriesFrom acc2 rest

/-- The whole merge loop, starting from the empty `errorsObject`. -/
def mergeEntries (es : List (String × JVal)) : Except Unit (List (String × JVal)) :=
  mergeEntriesFrom [] es

theorem mergeEntriesFrom_append (es : List (String × JVal)) (kv : String × JVal)
    (acc : List (String × JVal)) :
    mergeEntriesFrom acc (es ++ [kv])
      = match mergeEntriesFrom acc es with
        | .error u => .error u
        | .ok m => mergeEntry m kv.1 kv.2 := by
  induction es generalizing acc with
  | nil =>
      rw [List.nil_append]
      cases hX : mergeEntry acc kv.1 kv.2 <;> simp [mergeEntriesFrom, hX]
  | cons p rest ihp =>
      rw [List.cons_append]
      cases hX : mergeEntry acc p.1 p.2 with
      | error u => simp [mergeEntriesFrom, hX]
      | ok acc2 => simp [mergeEntriesFrom, hX, ihp]

/-- The value of the last entry with key `k`. -/
def lastValueFor (es : List (String × JVal)) (k : String) : Option JVal :=
  (es.reverse.find? (fun kv => kv.1 == k)).map Prod.snd

theorem lastValueFor_append (es : List (String × JVal)) (kv : String × JVal) (k : String) :
    lastValueFor (es ++ [kv]) k = if kv.1 = k then some kv.2 else lastValueFor es k := by
  by_cases h : kv.1 = k
  · simp [lastValueFor, List.find?_cons, h]
  · simp [lastValueFor, List.find?_cons, h, beq_eq_false_iff_ne.mpr h]

/-- The entries whose key does not start with an underscore, in order. -/
def plainEntries (es : List (String × JVal)) : List (String × JVal) :=
  es.filter (fun kv => !jsStartsWithUnderscore kv.1)

/-- The `errors` sub-object built from the non-underscore entries. -/
def errSub (es : List (String × JVal)) : List (String × JVal) :=
  (plainEntries es).foldl (fun m kv => setKey m kv.1 kv.2) []

def hasPlainEntry (es : List (String × JVal)) : Bool :=
  es.any (fun kv => !jsStartsWithUnderscore kv.1)

theorem mergeEntry_underscore (acc : List (String × JVal)) (k : String) (v : JVal)
    (h : jsStartsWithUnderscore k = true) :
    mergeEntry acc k v = .ok (setKey acc (jsRemoveFirstUnderscore k) v) := by
  rw [mergeEntry, if_pos h]

theorem mergeEntry_plain_none (acc : List (String × JVal)) (k : String) (v : JVal)
    (hk : jsStartsWithUnderscore k = false) (hl : lookupKey acc "errors" = none) :
    mergeEntry acc k v
      = .ok (setKey (setKey acc "errors" (JVal.obj [])) "errors"
          (JVal.obj (setKey [] k v))) := by
  rw [mergeEntry, if_neg (by simp [hk]), hl]

theorem mergeEntry_plain_obj (acc : List (String × JVal)) (k : String) (v : JVal)
    (fs : List (String × JVal))
    (hk : jsStartsWithUnderscore k = false) (hl : lookupKey acc "errors" = some (JVal.obj fs)) :
    mergeEntry acc k v = .ok (setKey acc "errors" (JVal.obj (setKey fs k v))) := by
  rw [mergeEntry, if_neg (by simp [hk]), hl]

theorem hasPlainEntry_append (es : List (String × JVal)) (kv : String × JVal) :
    hasPlainEntry (es ++ [kv]) = (hasPlainEntry es || !jsStartsWithUnderscore kv.1) := by
  simp [hasPlainEntry, List.any_append]

theorem plainEntries_append (es : List (String × JVal)) (kv : String × JVal) :
    plainEntries (es ++ [kv])
      = plainEntries es ++ (if jsStartsWithUnderscore kv.1 then [] else [kv]) := by
  cases h : jsStartsWithUnderscore kv.1 <;>
    simp [plainEntries, List.filter_append, List.filter_cons, h]

theorem errSub_append_underscore (es : List (String × JVal)) (kv : String × JVal)
    (h : jsStartsWithUnderscore kv.1 = true) : errSub (es ++ [kv]) = errSub es := by
  rw [errSub, plainEntries_append, if_pos h, List.append_nil, errSub]

theorem errSub_append_plain (es : List (String × JVal)) (kv : String × JVal)
    (h : jsStartsWithUnderscore kv.1 = false) :
    errSub (es ++ [kv]) = setKey (errSub es) kv.1 kv.2 := by
  rw [errSub, plainEntries_append, if_neg (by simp [h]), List.foldl_append, errSub]
  rfl

theorem errSub_eq_nil_of_no_plain (es : List (String × JVal))
    (h : hasPlainEntry es = false) : errSub es = [] := by
  have hp : plainEntries es = [] := by
    rw [plainEntries, List.filter_eq_nil_iff]
    intro kv hkv
    have := List.any_eq_false.mp h kv hkv
    simpa using this
  rw [errSub, hp]
  rfl

/-- Full characterization of the merge loop of `check`, provided no result
entry uses the key `_errors` (which would collide with the internal `errors`
container): the merge completes without throwing, a top-level name `n` other
than `errors` holds the value of the last entry whose key was `_` followed by
`n`, and the `errors` slot holds the object of all non-underscore entries
(last write per key) as soon as at least one such entry exists, and is absent
otherwise. -/
theorem mergeEntries_char (es : List (String × JVal)) :
    (∀ kv ∈ es, kv.1 ≠ "_errors") →
    ∃ m, mergeEntries es = .ok m
      ∧ (∀ n : String, n ≠ "errors" →
          lookupKey m n = lastValueFor es (underscoreName n))
      ∧ lookupKey m "errors" =
          (if hasPlainEntry es then some (JVal.obj (errSub es)) else none) := by
  induction es using List.reverseRecOn with
  | nil => exact fun _ => ⟨[], rfl, fun n _ => rfl, rfl⟩
  | append_singleton es kv ih =>
      intro H
      obtain ⟨m, hm, ihTop, ihErr⟩ := ih (fun kv' h' => H kv' (List.mem_append_left _ h'))
      have hkv : kv.1 ≠ "_errors" :=
        H kv (List.mem_append_right _ (List.mem_singleton.mpr rfl))
      have happ : mergeEntries (es ++ [kv]) = mergeEntry m kv.1 kv.2 := by
        rw [mergeEntries, mergeEntriesFrom_append, ← mergeEntries, hm]
      cases hu : jsStartsWithUnderscore kv.1 with
      | true =>
          have hname : underscoreName (jsRemoveFirstUnderscore kv.1) = kv.1 :=
            underscoreName_of_starts _ hu
          have hstrip : jsRemoveFirstUnderscore kv.1 ≠ "errors" := by
            intro he
            exact hkv (by rw [← hname, he, underscoreName_errors])
          refine ⟨setKey m (jsRemoveFirstUnderscore kv.1) kv.2,
            happ.trans (mergeEntry_underscore m kv.1 kv.2 hu), ?_, ?_⟩
          · intro n hn
            rw [lastValueFor_append]
            by_cases heq : jsRemoveFirstUnderscore kv.1 = n
            · subst heq
              rw [lookupKey_setKey_self, if_pos hname.symm]
            · have hcond : kv.1 ≠ underscoreName n := by
                intro hc
                exact heq (underscoreName_inj (hname.trans hc))
              rw [if_neg hcond, lookupKey_setKey_ne _ _ _ _ (fun hc => heq hc.symm),
                ihTop n hn]
          · rw [lookupKey_setKey_ne _ _ _ _ (Ne.symm hstrip), ihErr,
              hasPlainEntry_append, hu, errSub_append_underscore _ _ hu]
            simp
      | false =>
          have hplain : hasPlainEntry (es ++ [kv]) = true := by
            rw [hasPlainEntry_append, hu]
            simp
          have herrSub := errSub_append_plain es kv hu
          have step :
              mergeEntry m kv.1 kv.2
                = .ok (setKey (if hasPlainEntry es then m
                    else setKey m "errors" (JVal.obj []))
                    "errors" (JVal.obj (setKey (errSub es) kv.1 kv.2))) := by
            cases hPl : hasPlainEntry es with
            | true =>
                have hl : lookupKey m "errors"
                    = some (JVal.obj (errSub es)) := by
                  rw [ihErr, hPl, if_pos rfl]
                rw [mergeEntry_plain_obj _ _ _ _ hu hl, if_pos rfl]
            | false =>
                have hl : lookupKey m "errors" = none := by
                  rw [ihErr, hPl]
                  rfl
                rw [mergeEntry_plain_none _ _ _ hu hl,
                  errSub_eq_nil_of_no_plain es hPl, if_neg (by simp)]
          refine ⟨_, happ.trans step, ?_, ?_⟩
          · intro n hn
            rw [lookupKey_setKey_ne _ _ _ _ hn, lastValueFor_append,
              if_neg (ne_underscoreName_of_not_starts _ _ hu)]
            cases hPl : hasPlainEntry es with
            | true => rw [if_pos rfl, ihTop n hn]
            | false =>
                rw [if_neg (by simp), lookupKey_setKey_ne _ _ _ _ hn, ihTop n hn]
          · rw [lookupKey_setKey_self, hplain, if_pos rfl, herrSub]

theorem lookupKey_foldlSet (entries : List (String × JVal)) (k : String) :
    lookupKey (entries.foldl (fun m kv => setKey m kv.1 kv.2) []) k
      = lastValueFor entries k := by
  induction entries using List.reverseRecOn with
  | nil => rfl
  | append_singleton es kv ih =>
      rw [List.foldl_append, List.foldl_cons, List.foldl_nil, lastValueFor_append]
      by_cases h : kv.1 = k
      · rw [if_pos h, ← h, lookupKey_setKey_self]
      · rw [if_neg h, lookupKey_setKey_ne _ _ _ _ (Ne.symm h), ih]

theorem lookupKey_errSub (es : List (String × JVal)) (k : String) :
    lookupKey (errSub es) k = lastValueFor (plainEntries es) k :=
  lookupKey_foldlSet (plainEntries es) k

/-- C4 counterexample: merging the single check result
`{ _errors: "boom", field: "msg" }` throws.  The promoted `_errors` key puts
the truthy string `"boom"` into the `errors` slot; the subsequent
`errorsObject.errors["field"] = v` then assigns a property on a string
primitive, which throws a TypeError in the strict-mode ES module, so
`check`'s promise rejects: `field` is never written under any `errors`
sub-mapping and no merged accumulator is produced at all, contradicting the
claim that every non-underscore key is written under the `errors`
sub-mapping. -/
theorem C4_counterexample :
    mergeEntries [("_errors", JVal.str "boom"), ("field", JVal.str "msg")]
      = Except.error () := rfl

/-- C4 (amended): provided no check-result key is literally `_errors`, the
merge completes without throwing and behaves as claimed — an
underscore-prefixed key is written at the accumulator's top level with
exactly one leading underscore stripped (the promoted name is the key minus
its first character), every other key is written under the `errors`
sub-mapping, and on key collisions across checks the later value wins, both
for promoted top-level names and per field under `errors`.  (A result key
`_errors` holding a truthy non-object instead puts that value into the
`errors` slot, and a subsequent non-underscore key then makes the merge
throw a TypeError, rejecting the check run.) -/
theorem C4_check_merge (es : List (String × JVal)) (H : ∀ kv ∈ es, kv.1 ≠ "_errors")
    (n k : String) :
    (jsStartsWithUnderscore k = true → (jsRemoveFirstUnderscore k).data = k.data.tail)
    ∧ ∃ m, mergeEntries es = .ok m
        ∧ (n ≠ "errors" → lookupKey m n = lastValueFor es (underscoreName n))
        ∧ lookupKey m "errors"
            = (if hasPlainEntry es then some (JVal.obj (errSub es)) else none)
        ∧ lookupKey (errSub es) k = lastValueFor (plainEntries es) k := by
  obtain ⟨m, hm, hTop, hErr⟩ := mergeEntries_char es H
  exact ⟨jsRemoveFirstUnderscore_data_of_starts k,
    m, hm, hTop n, hErr, lookupKey_errSub es k⟩

/-- The check results of the witness scenario, flattened:
`{ _status: "unauthorized" }`, `{ x: "A" }`, `{ x: "B" }`. -/
def c4Es : List (String × JVal) :=
  [("_status", JVal.str "unauthorized"), ("x", JVal.str "A"), ("x", JVal.str "B")]

/-- C4 witness: on the concrete results the merge completes, promotes
`_status` to top-level `status` (underscore stripped), and the later check
wins the collision on `x` under `errors`. -/
theorem C4_check_merge_witness :
    mergeEntries c4Es
      = Except.ok [("status", JVal.str "unauthorized"),
          ("errors", JVal.obj [("x", JVal.str "B")])]
    ∧ lookupKey [("status", JVal.str "unauthorized"),
          ("errors", JVal.obj [("x", JVal.str "B")])] "status"
        = some (JVal.str "unauthorized")
    ∧ lookupKey (errSub c4Es) "x" = some (JVal.str "B") := by
  obtain ⟨-, m, hm, hTop, -, hSub⟩ := C4_check_merge c4Es (by decide) "status" "x"
  have hcomp : mergeEntries c4Es
      = Except.ok [("status", JVal.str "unauthorized"),
          ("errors", JVal.obj [("x", JVal.str "B")])] := rfl
  have hm0 : m = [("status", JVal.str "unauthorized"),
      ("errors", JVal.obj [("x", JVal.str "B")])] :=
    Except.ok.inj (hm.symm.trans hcomp)
  subst hm0
  refine ⟨hm, ?_, ?_⟩
  · rw [hTop (by decide)]
    rfl
  · rw [hSub]
    rfl

/-! ### isZodError from `src/lib/utils.ts` and the catch-classification in
`src/core/functions.ts`

`const issues = error.issues;` throws a TypeError when `error` is `null` or
`undefined`; the `in` operator (`"path" in i`) throws a TypeError when its
right operand is not an object.  `Except Unit` tracks these classifier-level
TypeErrors. -/

/-- JS property read `x.k`: TypeError on `null`/`undefined`; own property or
`undefined` on objects; primitives and arrays carry none of the properties
the classifier reads (`issues`, `path`, `message`). -/
def getProp : JVal → String → Except Unit JVal
  | .vnull, _ => .error ()
  | .vundefined, _ => .error ()
  | .obj fs, k => .ok ((lookupKey fs k).getD .vundefined)
  | _, _ => .ok .vundefined

/-- JS `"k" in x`: own-property test on objects (arrays own none of the keys
the classifier tests); TypeError on primitives, `null` and `undefined`. -/
def hasProp : JVal → String → Except Unit Bool
  | .obj fs, k => .ok (fs.any (fun p => p.1 == k))
  | .arr _, _ => .ok false
  | _, _ => .error ()

/-- `issues.every((i) => "path" in i && "message" in i)`: stops at the first
failing element; a TypeError from `in` aborts the whole classification. -/
def allZodIssueLike : List JVal → Except Unit Bool
  | [] => .ok true
  | i :: rest =>
      match hasProp i "path" with
      | .error u => .error u
      | .ok false => .ok false
      | .ok true =>
          match hasProp i "message" with
          | .error u => .error u
          | .ok false => .ok false
          | .ok true => allZodIssueLike rest

/-- `isZodError(error)` from `src/lib/utils.ts`:
`issues && typeof issues === "object" && Array.isArray(issues) &&
issues.every((i) => "path" in i && "message" in i)`.
A falsy `issues` short-circuits to false; a truthy non-array fails either the
`typeof` or the `Array.isArray` test. -/
def isZodError (e : JVal) : Except Unit Bool :=
  match getProp e "issues" with
  | .error u => .error u
  | .ok issues =>
      if jsFalsy issues then .ok false
      else
        match issues with
        | JVal.arr elems => allZodIssueLike elems
        | _ => .ok false

inductive CatchOutcome where
  | responded400 (issues : JVal)
  | rethrown (e : JVal)
  | classifierTypeError

/-- The catch block of the plugin preHandler (`src/core/functions.ts`) and of
`schemaValidation` (`src/core/schema-validation.ts`): a thrown value passing
`isZodError` is answered with a 400 whose errors are formatted from
`error.issues`; any other thrown value is re-thrown unchanged; a TypeError
raised by the classifier itself propagates in place of the original value. -/
def classifyThrown (e : JVal) : CatchOutcome :=
  match isZodError e with
  | .error _ => .classifierTypeError
  | .ok true =>
      match getProp e "issues" with
      | .ok issues => .responded400 issues
      | .error _ => .classifierTypeError
  | .ok false => .rethrown e

def isObjectLike : JVal → Bool
  | .obj _ => true
  | .arr _ => true
  | _ => false

/-- An element on which `"path" in i && "message" in i` succeeds: an object
owning both a `path` and a `message` property. -/
def goodIssueElem : JVal → Bool
  | .obj fs => (fs.any (fun p => p.1 == "path")) && (fs.any (fun p => p.1 == "message"))
  | _ => false

def isArrVal : JVal → Bool
  | .arr _ => true
  | _ => false

theorem allZodIssueLike_of_good (elems : List JVal)
    (h : elems.all goodIssueElem = true) : allZodIssueLike elems = .ok true := by
  induction elems with
  | nil => rfl
  | cons i rest ih =>
      rw [List.all_cons, Bool.and_eq_true] at h
      obtain ⟨hi, hrest⟩ := h
      cases i with
      | obj fs =>
          rw [goodIssueElem, Bool.and_eq_true] at hi
          simp only [allZodIssueLike, hasProp, hi.1, hi.2]
          exact ih hrest
      | vnull => exact absurd hi (by simp [goodIssueElem])
      | vundefined => exact absurd hi (by simp [goodIssueElem])
      | str s => exact absurd hi (by simp [goodIssueElem])
      | num n => exact absurd hi (by simp [goodIssueElem])
      | boolean b => exact absurd hi (by simp [goodIssueElem])
      | arr l => exact absurd hi (by simp [goodIssueElem])

theorem allZodIssueLike_not_good (elems : List JVal)
    (hobj : elems.all isObjectLike = true)
    (h : elems.all goodIssueElem = false) : allZodIssueLike elems = .ok false := by
  induction elems with
  | nil => exact absurd h (by simp)
  | cons i rest ih =>
      rw [List.all_cons, Bool.and_eq_true] at hobj
      rw [List.all_cons, Bool.and_eq_false_iff] at h
      cases i with
      | arr l => simp [allZodIssueLike, hasProp]
      | obj fs =>
          cases hp : fs.any (fun p => p.1 == "path") with
          | false => simp only [allZodIssueLike, hasProp, hp]
          | true =>
              cases hm : fs.any (fun p => p.1 == "message") with
              | false => simp only [allZodIssueLike, hasProp, hp, hm]
              | true =>
                  simp only [allZodIssueLike, hasProp, hp, hm]
                  rcases h with h | h
                  · exact absurd h (by simp [goodIssueElem, hp, hm])
                  · exact ih hobj.2 h
      | vnull => exact absurd hobj.1 (by simp [isObjectLike])
      | vundefined => exact absurd hobj.1 (by simp [isObjectLike])
      | str s => exact absurd hobj.1 (by simp [isObjectLike])
      | num n => exact absurd hobj.1 (by simp [isObjectLike])
      | boolean b => exact absurd hobj.1 (by simp [isObjectLike])

theorem getProp_obj_issues (fs : List (String × JVal)) (v : JVal)
    (hl : lookupKey fs "issues" = some v) :
    getProp (JVal.obj fs) "issues" = .ok v := by
  rw [getProp, hl]
  rfl

theorem getProp_obj_issues_none (fs : List (String × JVal))
    (hl : lookupKey fs "issues" = none) :
    getProp (JVal.obj fs) "issues" = .ok JVal.vundefined := by
  rw [getProp, hl]
  rfl

theorem isZodError_obj_arr (fs : List (String × JVal)) (elems : List JVal)
    (hl : lookupKey fs "issues" = some (JVal.arr elems)) :
    isZodError (JVal.obj fs) = allZodIssueLike elems := by
  rw [isZodError, getProp_obj_issues fs _ hl]
  rfl

theorem isZodError_obj_notArr (fs : List (String × JVal)) (v : JVal)
    (hl : lookupKey fs "issues" = some v) (hv : isArrVal v = false) :
    isZodError (JVal.obj fs) = .ok false := by
  rw [isZodError, getProp_obj_issues fs v hl]
  cases v with
  | arr l => exact absurd hv (by simp [isArrVal])
  | vnull => rfl
  | vundefined => rfl
  | obj fs2 => rfl
  | boolean b => cases b <;> rfl
  | str s => by_cases h : s = "" <;> simp [jsFalsy, h]
  | num n => by_cases h : n = 0 <;> simp [jsFalsy, h]

theorem isZodError_obj_noIssues (fs : List (String × JVal))
    (hl : lookupKey fs "issues" = none) :
    isZodError (JVal.obj fs) = .ok false := by
  rw [isZodError, getProp_obj_issues_none fs hl]
  rfl

/-- C9 counterexample: a promise that rejects with `null` is not answered with
a 400 and does not propagate unchanged either — `error.issues` inside
`isZodError` throws a TypeError, which propagates in place of the original
thrown value, contradicting the claim that every non-Zod-like thrown value
propagates unchanged. -/
theorem C9_counterexample :
    classifyThrown JVal.vnull = CatchOutcome.classifierTypeError
    ∧ CatchOutcome.classifierTypeError ≠ CatchOutcome.rethrown JVal.vnull :=
  ⟨rfl, fun h => CatchOutcome.noConfusion h⟩

/-- C9 (amended): a thrown value is answered with a 400 iff its `issues`
property is an array, possibly empty, all of whose elements are objects
owning `path` and `message` properties.  A thrown object whose `issues` is
not such an array is re-thrown unchanged (provided an `issues` array has only
object-like elements, so the `in` operator does not throw), and every thrown
primitive, array, string, number or boolean is re-thrown unchanged.  Thrown
`null` or `undefined`, and an `issues` array whose element checks reach a
primitive element, make the classifier itself throw a TypeError, which
propagates in place of the original value.  An empty `issues` array is
classified as a Zod error, and formatting an empty issue list yields an empty
errors mapping in both `flat` and `simple` modes. -/
theorem C9_zod_classification (fs : List (String × JVal)) (elems : List JVal)
    (s : String) (n : Int) (b : Bool) (l : List JVal) :
    (lookupKey fs "issues" = some (JVal.arr elems) → elems.all goodIssueElem = true →
        classifyThrown (JVal.obj fs) = .responded400 (JVal.arr elems))
    ∧ (lookupKey fs "issues" = some (JVal.arr elems) → elems.all isObjectLike = true →
        elems.all goodIssueElem = false →
        classifyThrown (JVal.obj fs) = .rethrown (JVal.obj fs))
    ∧ (((lookupKey fs "issues").map isArrVal).getD false = false →
        classifyThrown (JVal.obj fs) = .rethrown (JVal.obj fs))
    ∧ classifyThrown (JVal.str s) = .rethrown (JVal.str s)
    ∧ classifyThrown (JVal.num n) = .rethrown (JVal.num n)
    ∧ classifyThrown (JVal.boolean b) = .rethrown (JVal.boolean b)
    ∧ classifyThrown (JVal.arr l) = .rethrown (JVal.arr l)
    ∧ classifyThrown JVal.vnull = CatchOutcome.classifierTypeError
    ∧ classifyThrown JVal.vundefined = CatchOutcome.classifierTypeError
    ∧ classifyThrown (JVal.obj [("issues", JVal.arr [JVal.num 5])])
        = CatchOutcome.classifierTypeError
    ∧ formatErrors [] "flat" = .flat [] ∧ formatErrors [] "simple" = .simple [] := by
  refine ⟨?_, ?_, ?_, rfl, rfl, ?_, rfl, rfl, rfl, rfl, rfl, rfl⟩
  · intro hl hgood
    have hz : isZodError (JVal.obj fs) = .ok true := by
      rw [isZodError_obj_arr fs elems hl]
      exact allZodIssueLike_of_good elems hgood
    rw [classifyThrown, hz, getProp_obj_issues fs _ hl]
  · intro hl hobj hgood
    have hz : isZodError (JVal.obj fs) = .ok false := by
      rw [isZodError_obj_arr fs elems hl]
      exact allZodIssueLike_not_good elems hobj hgood
    rw [classifyThrown, hz]
  · intro hv
    cases hl : lookupKey fs "issues" with
    | none =>
        rw [classifyThrown, isZodError_obj_noIssues fs hl]
    | some v =>
        rw [hl] at hv
        simp only [Option.map_some', Option.getD_some] at hv
        rw [classifyThrown, isZodError_obj_notArr fs v hl hv]
  · cases b <;> rfl

/-- C9 witness: a thrown object carrying an empty `issues` array is classified
as a Zod validation failure and answered with a 400. -/
theorem C9_zod_classification_witness :
    classifyThrown (JVal.obj [("issues", JVal.arr [])])
      = CatchOutcome.responded400 (JVal.arr []) :=
  (C9_zod_classification [("issues", JVal.arr [])] [] "" 0 false []).1 rfl rfl

/-! ### SchemaValidator and the plugin preHandler of `src/core/functions.ts` -/

structure Request where
  body : JVal
  query : JVal
  reqParams : JVal

/-- One configured schema slot, as probed by the source: `if (schema.body)`
skips absent/falsy values; `typeof schema.body.parse !== "function"` detects
a truthy non-schema value; a real schema's `parseAsync` resolves with the
parsed value or rejects with a thrown value. -/
inductive SlotCfg where
  | absent
  | notSchema
  | schema («parseAsync» : JVal → Except JVal JVal)

structure SchemaCfg where
  body : SlotCfg
  query : SlotCfg
  reqParams : SlotCfg

/-- `new Error("schema.<slot> is not a valid Zod schema")`: modelled by its
own `message` property; an Error object owns no `issues` property, the only
one the catch-classifier reads. -/
def configErrorVal (slot : String) : JVal :=
  JVal.obj [("message", JVal.str ("schema." ++ slot ++ " is not a valid Zod schema"))]

inductive SlotsOutcome where
  | softReturn (req : Request)
  | thrown (e : JVal) (req : Request)
  | passed (req : Request)

def validateParamsSlot (soft : Bool) (cfg : SchemaCfg) (req : Request) : SlotsOutcome :=
  match cfg.reqParams with
  | .absent => .passed req
  | .notSchema => if soft then .softReturn req else .thrown (configErrorVal "params") req
  | .schema parse =>
      match parse req.reqParams with
      | .error e => .thrown e req
      | .ok v => .passed { req with reqParams := v }

def validateQuerySlot (soft : Bool) (cfg : SchemaCfg) (req : Request) : SlotsOutcome :=
  match cfg.query with
  | .absent => validateParamsSlot soft cfg req
  | .notSchema => if soft then .softReturn req else .thrown (configErrorVal "query") req
  | .schema parse =>
      match parse req.query with
      | .error e => .thrown e req
      | .ok v => validateParamsSlot soft cfg { req with query := v }

/-- The `try` block shared by the plugin preHandler (`src/core/functions.ts`)
and `schemaValidation` (`src/core/schema-validation.ts`): body, then query,
then params.  A successful parse replaces the request field; a non-schema
slot returns from the whole enclosing function when `soft` is set and throws
a configuration Error otherwise; a rejecting parse throws the rejection
value. -/
def validateSlots (soft : Bool) (cfg : SchemaCfg) (req : Request) : SlotsOutcome :=
  match cfg.body with
  | .absent => validateQuerySlot soft cfg req
  | .notSchema => if soft then .softReturn req else .thrown (configErrorVal "body") req
  | .schema parse =>
      match parse req.body with
      | .error e => .thrown e req
      | .ok v => validateQuerySlot soft cfg { req with body := v }

/-- Registration options as passed to the plugin; `none` models an omitted
option. -/
structure PluginOpts where
  hint : Option String
  format : Option String
  verbose : Option Bool
  soft : Option Bool
  formatter : Option (JVal → JVal)

structure ResolvedOpts where
  hint : String
  format : String
  verbose : Bool
  soft : Bool
  formatter : Option (JVal → JVal)

/-- The destructuring defaults of `src/core/functions.ts`:
`const { hint = "Invalid data submitted", format = "flat", verbose = true,
formatter, soft = false } = opts;`. -/
def resolveOpts (o : PluginOpts) : ResolvedOpts :=
  { hint := o.hint.getD "Invalid data submitted"
    format := o.format.getD "flat"
    verbose := o.verbose.getD true
    soft := o.soft.getD false
    formatter := o.formatter }

def defaultOpts : ResolvedOpts :=
  resolveOpts ⟨none, none, none, none, none⟩

/-- A route check entry: `none` models a list element that is not a function
(skipped by `if (typeof check !== "function") continue;`); a function returns
`none` when it reports nothing (`if (result)` sees a falsy result). -/
def CheckEntry : Type := Option (Request → Option (List (String × JVal)))

/-- `check(req, checks)` from `src/core/check.ts`: run the checks in order,
merging each truthy result's entries into the accumulator; a TypeError thrown
by the merge loop rejects the whole `check` call. -/
def runCheckFnsFrom (req : Request) :
    List (String × JVal) → List CheckEntry → Except Unit (List (String × JVal))
  | acc, [] => .ok acc
  | acc, none :: rest => runCheckFnsFrom req acc rest
  | acc, some f :: rest =>
      match f req with
      | none => runCheckFnsFrom req acc rest
      | some result =>
          match mergeEntriesFrom acc result with
          | .error u => .error u
          | .ok acc2 => runCheckFnsFrom req acc2 rest

def runCheckFns (req : Request) (checks : List CheckEntry) :
    Except Unit (List (String × JVal)) :=
  runCheckFnsFrom req [] checks

/-- The check-failure 400 body `{ statusCode: 400, message: hint, ...errors }`:
the literal keys first, then the spread entries in their key order,
overwriting on collision. -/
def checkFailureBody (hint : String) (errors : List (String × JVal)) : List (String × JVal) :=
  errors.foldl (fun b kv => setKey b kv.1 kv.2)
    [("statusCode", JVal.num 400), ("message", JVal.str hint)]

inductive HookOutcome where
  | proceeded (req : Request)
  | responded400Validation (issues : JVal) (req : Request)
  | responded400Check (respBody : List (String × JVal)) (req : Request)
  | raised (e : JVal) (req : Request)
  | classifierCrashed (req : Request)
  | checksCrashed (req : Request)

/-- The checks phase of the plugin preHandler: when route checks are attached,
a non-empty merged error object is answered with the check-failure 400.
`await check(request, routeChecks)` sits outside the try block, so a
TypeError thrown by the merge rejects the hook and propagates to the host
framework. -/
def pluginChecksPhase (opts : ResolvedOpts) (routeChecks : Option (List CheckEntry))
    (req : Request) : HookOutcome :=
  match routeChecks with
  | none => .proceeded req
  | some checks =>
      match runCheckFns req checks with
      | .error _ => .checksCrashed req
      | .ok [] => .proceeded req
      | .ok (e :: es) => .responded400Check (checkFailureBody opts.hint (e :: es)) req

/-- The plugin preHandler hook of `src/core/functions.ts`: when a schema is
attached, validate the three slots — the `return` in the `soft` branch exits
the whole hook, skipping the checks; a thrown value is classified by the
catch block; only when the `try` block completes does control reach the
checks phase. -/
def pluginPreHandler (opts : ResolvedOpts) (schema : Option SchemaCfg)
    (routeChecks : Option (List CheckEntry)) (req : Request) : HookOutcome :=
  match schema with
  | none => pluginChecksPhase opts routeChecks req
  | some cfg =>
      match validateSlots opts.soft cfg req with
      | .softReturn r => .proceeded r
      | .passed r => pluginChecksPhase opts routeChecks r
      | .thrown e r =>
          match classifyThrown e with
          | .responded400 issues => .responded400Validation issues r
          | .rethrown e2 => .raised e2 r
          | .classifierTypeError => .classifierCrashed r

/-- C6: with all options omitted the code's effective defaults are
hint = "Invalid data submitted", format = "flat", verbose = true,
soft = false and no formatter — `format` and `verbose` contradict the
claimed (and JSDoc/README-documented) "simple" and false. -/
theorem C6_defaults_eval :
    resolveOpts ⟨none, none, none, none, none⟩
      = ⟨"Invalid data submitted", "flat", true, false, none⟩
    ∧ ("flat" : String) ≠ "simple" ∧ (true : Bool) ≠ false :=
  ⟨rfl, by decide, by decide⟩

/-- C2 (amended): with soft = true and a non-schema value configured for
`body`, the early `return` exits the whole hook: the request proceeds to the
handler with body, query and params all unmodified, the query and params
schemas are never consulted, and the route checks never run. -/
theorem C2_soft_skips_whole_hook (opts : ResolvedOpts) (cfg : SchemaCfg)
    (routeChecks : Option (List CheckEntry)) (req : Request)
    (hsoft : opts.soft = true) (hbody : cfg.body = .notSchema) :
    validateSlots opts.soft cfg req = .softReturn req
    ∧ pluginPreHandler opts (some cfg) routeChecks req = .proceeded req := by
  have h1 : validateSlots opts.soft cfg req = .softReturn req := by
    rw [validateSlots, hbody, hsoft]
    rfl
  refine ⟨h1, ?_⟩
  rw [pluginPreHandler, h1]

def softTestOpts : ResolvedOpts :=
  ⟨"Invalid data submitted", "flat", true, true, none⟩

def sampleZodThrow : JVal :=
  JVal.obj [("issues", JVal.arr
    [JVal.obj [("path", JVal.arr [JVal.str "q"]), ("message", JVal.str "Required")]])]

def rejectingParse : JVal → Except JVal JVal :=
  fun _ => .error sampleZodThrow

/-- A schema config with a non-schema `body` value and a `query` schema that
rejects every input with a Zod-like error. -/
def badBodyCfg : SchemaCfg :=
  ⟨SlotCfg.notSchema, SlotCfg.schema rejectingParse, SlotCfg.absent⟩

def failingCheck : CheckEntry :=
  some (fun _ => some [("x", JVal.str "bad")])

def req0 : Request :=
  ⟨JVal.str "b", JVal.str "q", JVal.str "p"⟩

/-- C2 counterexample: soft = true, a non-schema `body`, a `query` schema that
rejects its input and a check that reports an error — the hook proceeds to
the handler with the request untouched; the query schema was never applied
(applying it rejects with a Zod error that classifies as a validation 400)
and the check never ran (it reports a non-empty error object), contradicting
the claim that the remaining sources are still validated and the check
functions still run. -/
theorem C2_counterexample :
    pluginPreHandler softTestOpts (some badBodyCfg) (some [failingCheck]) req0
      = .proceeded req0
    ∧ rejectingParse req0.query = .error sampleZodThrow
    ∧ classifyThrown sampleZodThrow
        = .responded400 (JVal.arr
            [JVal.obj [("path", JVal.arr [JVal.str "q"]), ("message", JVal.str "Required")]])
    ∧ runCheckFns req0 [failingCheck]
        = Except.ok [("errors", JVal.obj [("x", JVal.str "bad")])] :=
  ⟨rfl, rfl, rfl, rfl⟩

/-- C2 witness: the amended statement at the concrete counterexample
configuration. -/
theorem C2_soft_skips_whole_hook_witness :
    validateSlots softTestOpts.soft badBodyCfg req0 = .softReturn req0
    ∧ pluginPreHandler softTestOpts (some badBodyCfg) (some [failingCheck]) req0
        = .proceeded req0 :=
  C2_soft_skips_whole_hook softTestOpts badBodyCfg (some [failingCheck]) req0 rfl rfl

/-- C7: with soft = false, a configured slot failing the schema probe throws
`new Error("schema.<slot> is not a valid Zod schema")`; that object has no
`issues` property, so `isZodError` rejects it and the hook re-throws it — it
is never converted into a 400 response, propagating instead as an
unrecoverable error. -/
theorem C7_config_error_propagates (opts : ResolvedOpts) (cfg : SchemaCfg)
    (routeChecks : Option (List CheckEntry)) (req r : Request) (slot : String)
    (hsoft : opts.soft = false)
    (hthrow : validateSlots opts.soft cfg req = .thrown (configErrorVal slot) r) :
    isZodError (configErrorVal slot) = .ok false
    ∧ pluginPreHandler opts (some cfg) routeChecks req = .raised (configErrorVal slot) r := by
  refine ⟨rfl, ?_⟩
  rw [pluginPreHandler, hthrow]
  rfl

/-- C7 witness: a non-schema `body` slot with soft = false makes the hook
re-throw the configuration Error. -/
theorem C7_config_error_propagates_witness :
    isZodError (configErrorVal "body") = .ok false
    ∧ pluginPreHandler defaultOpts (some badBodyCfg) (some [failingCheck]) req0
        = .raised (configErrorVal "body") req0 :=
  C7_config_error_propagates defaultOpts badBodyCfg (some [failingCheck]) req0 req0 "body"
    rfl rfl

/-- `reject` from `src/lib/utils.ts`: a string argument becomes
`{ _message: <string> }`; a mapping is returned unchanged. -/
inductive RejectArg where
  | s (v : String)
  | m (fields : List (String × String))

def reject : RejectArg → List (String × JVal)
  | .s v => [("_message", JVal.str v)]
  | .m fields => fields.map (fun p => (p.1, JVal.str p.2))

/-- C10: `reject(s)` returns `{ _message: s }` and `reject` of a mapping
returns that mapping unchanged; the merge promotes `_message` to the
top-level key `message`, and spreading the accumulator into
`{ statusCode: 400, message: hint, ...accumulator }` overwrites the
configured hint with `s`, which is what the hook sends. -/
theorem C10_reject_overrides_hint (s hint : String) (fields : List (String × String))
    (req : Request) :
    reject (RejectArg.s s) = [("_message", JVal.str s)]
    ∧ reject (RejectArg.m fields) = fields.map (fun p => (p.1, JVal.str p.2))
    ∧ runCheckFns req [some (fun _ => some (reject (RejectArg.s s)))]
        = Except.ok [("message", JVal.str s)]
    ∧ lookupKey (checkFailureBody hint [("message", JVal.str s)]) "message"
        = some (JVal.str s)
    ∧ pluginPreHandler ⟨hint, "flat", true, false, none⟩ none
        (some [some (fun _ => some (reject (RejectArg.s s)))]) req
        = .responded400Check (checkFailureBody hint [("message", JVal.str s)]) req :=
  ⟨rfl, rfl, rfl, rfl, rfl⟩

/-! ### `schemaValidation` from `src/core/schema-validation.ts` and the route
preHandler generated by `defineRoute` in `src/core/define-route.ts` -/

inductive SVResult where
  | noSchema
  | softUndefined (req : Request)
  | okFalse (req : Request)
  | sentTrue (issues : JVal) (req : Request)
  | thrownOut (e : JVal) (req : Request)
  | crashed (req : Request)

/-- `schemaValidation(request, reply, schema, config)`: returns false without
touching anything when the schema object is empty; otherwise runs the shared
slot validation.  The `soft` early `return` yields `undefined`; a completed
`try` returns false; a thrown value passing `isZodError` sends the validation
400 and returns true; any other thrown value is re-thrown. -/
def schemaValidation (soft : Bool) (schema : Option SchemaCfg) (req : Request) : SVResult :=
  match schema with
  | none => .noSchema
  | some cfg =>
      match validateSlots soft cfg req with
      | .softReturn r => .softUndefined r
      | .passed r => .okFalse r
      | .thrown e r =>
          match classifyThrown e with
          | .responded400 issues => .sentTrue issues r
          | .rethrown e2 => .thrownOut e2 r
          | .classifierTypeError => .crashed r

inductive PipeEv where
  | preStepRan
  | validationResponded400
  | validationThrew
  | checksInvoked
  | checksResponded400
  | checksThrew
  deriving Repr, DecidableEq

/-- The pre-handler loop of the generated route preHandler:
`for (const pre of preHandlers) { if (typeof pre !== "function") continue;
await pre(req, rep); }`. -/
def runPres : List (Option (Request → Request)) → Request → Request × List PipeEv
  | [], req => (req, [])
  | none :: rest, req => runPres rest req
  | some f :: rest, req =>
      let p := runPres rest (f req)
      (p.1, PipeEv.preStepRan :: p.2)

/-- The preHandler installed by each verb of `defineRoute`
(`src/core/define-route.ts`), taking the destructured `(schemaObj, config)`
as inputs.  The source calls `schemaValidation(req, rep, schemaObj, config)`
without `await` and never consults its boolean result, then calls
`runChecks(req, rep, checks)` unconditionally: neither a validation 400 sent
by `schemaValidation` nor a rejection coming out of it prevents the checks
phase, and the hook resolves without signalling the failure, so the handler
still runs.  The model records the observable events in order, sequencing the
un-awaited call's effects before the checks; the request object is shared in
the source, and the theorems below only use checks whose results do not
depend on request state. -/
def defineRoutePreHandler (soft : Bool) (pres : List (Option (Request → Request)))
    (schema : Option SchemaCfg) (checks : List CheckEntry) (req : Request) : List PipeEv :=
  let p := runPres pres req
  let sv := schemaValidation soft schema p.1
  let svEvents :=
    match sv with
    | .sentTrue _ _ => [PipeEv.validationResponded400]
    | .thrownOut _ _ => [PipeEv.validationThrew]
    | .crashed _ => [PipeEv.validationThrew]
    | _ => []
  let reqAfter :=
    match sv with
    | .noSchema => p.1
    | .softUndefined r => r
    | .okFalse r => r
    | .sentTrue _ r => r
    | .thrownOut _ r => r
    | .crashed r => r
  p.2 ++ svEvents ++ [PipeEv.checksInvoked]
    ++ (match runCheckFns reqAfter checks with
        | .error _ => [PipeEv.checksThrew]
        | .ok [] => []
        | .ok (_ :: _) => [PipeEv.checksResponded400])

/-- A schema config whose `body` schema rejects every input with a Zod-like
error. -/
def c1BodyCfg : SchemaCfg :=
  ⟨SlotCfg.schema rejectingParse, SlotCfg.absent, SlotCfg.absent⟩

/-- C1: a route registered through `defineRoute` with a body schema whose
parse rejects with a Zod error, plus one check that reports an error: the
preHandler's event trace shows the validation 400 being sent, the checks
being invoked anyway, and a second (check-failure) 400 being attempted — the
pipeline does not short-circuit after the failure response, because
`define-route.ts` never consults (nor awaits) `schemaValidation`'s result and
calls `runChecks` unconditionally. -/
theorem C1_no_short_circuit_eval :
    defineRoutePreHandler false [] (some c1BodyCfg) [failingCheck] req0
      = [PipeEv.validationResponded400, PipeEv.checksInvoked, PipeEv.checksResponded400]
    ∧ schemaValidation false (some c1BodyCfg) req0
        = SVResult.sentTrue (JVal.arr
            [JVal.obj [("path", JVal.arr [JVal.str "q"]), ("message", JVal.str "Required")]])
            req0 :=
  ⟨rfl, rfl⟩

/-! ### RouteBuilder: the fluent builder of `src/core/define-route.ts` -/

inductive BuilderOp where
  | addCheck (fns : List CheckEntry)
  | addPre (f : Option (Request → Request))
  | verb (tag : String)

structure BuilderState where
  checks : List CheckEntry
  pres : List (Option (Request → Request))
  routes : List String

def emptyBuilder : BuilderState := ⟨[], [], []⟩

/-- One builder call of `defineRoute`: `check(fn)` pushes onto the builder's
single `checks` array (arrays are flattened), `pre(fn)` pushes onto the
single `preHandlers` array, and each HTTP-verb call registers a route whose
preHandler closes over those same arrays by reference — the verb methods
return the same builder object, narrowed only at the type level by `Omit`. -/
def applyOp (st : BuilderState) : BuilderOp → BuilderState
  | .addCheck fns => { st with checks := st.checks ++ fns }
  | .addPre f => { st with pres := st.pres ++ [f] }
  | .verb tag => { st with routes := st.routes ++ [tag] }

def applyOps (ops : List BuilderOp) : BuilderState :=
  ops.foldl applyOp emptyBuilder

/-- At request time, the registered preHandler runs
`runChecks(req, rep, checks)` where `checks` is the shared array captured by
reference at registration: it reads the array's current contents, i.e. the
builder's full accumulated check list at the moment the request is handled,
not a snapshot taken at registration time. -/
def routeChecksAtRequest (builderNow : BuilderState) : List CheckEntry :=
  builderNow.checks

def opChecks : BuilderOp → List CheckEntry
  | .addCheck fns => fns
  | _ => []

theorem foldl_applyOp_checks (ops : List BuilderOp) (st : BuilderState) :
    (ops.foldl applyOp st).checks = st.checks ++ (ops.map opChecks).flatten := by
  induction ops generalizing st with
  | nil => simp
  | cons op rest ih =>
      rw [List.foldl_cons, ih, List.map_cons, List.flatten]
      cases op with
      | addCheck fns => simp [applyOp, opChecks]
      | addPre f => simp [applyOp, opChecks]
      | verb tag => simp [applyOp, opChecks]

def checkB : CheckEntry := some (fun _ => some [("fromB", JVal.str "B")])

def checkC : CheckEntry := some (fun _ => some [("fromC", JVal.str "C")])

/-- The scenario of the claim: `.check(B)`, then `.post(...)`, then
`.check(C)`, then `.get(...)`. -/
def c3Ops : List BuilderOp :=
  [BuilderOp.addCheck [checkB], BuilderOp.verb "POST /users",
    BuilderOp.addCheck [checkC], BuilderOp.verb "GET /users"]

/-- C3 counterexample: after the whole chain has run, the first-registered
(post) route's request-time check list is the shared array's current
contents, `[B, C]` — running it executes both B and C (both marker keys
appear in the merged errors), so the post route does run check C,
contradicting the claim. -/
theorem C3_counterexample :
    (applyOps c3Ops).routes = ["POST /users", "GET /users"]
    ∧ routeChecksAtRequest (applyOps c3Ops) = [checkB, checkC]
    ∧ runCheckFns req0 (routeChecksAtRequest (applyOps c3Ops))
        = Except.ok [("errors", JVal.obj [("fromB", JVal.str "B"), ("fromC", JVal.str "C")])] :=
  ⟨rfl, rfl, rfl⟩

/-- C3 (amended): the builder's check list is shared by reference and read at
request time, so checks appended after a verb call apply retroactively to
already-registered routes: for every sequence of builder calls, every
registered route's request-time check list equals the builder's full
accumulated check list — in the claim's scenario both the post and the get
route run B and then C for requests handled after registration completes. -/
theorem C3_shared_check_list (ops : List BuilderOp) :
    (applyOps ops).checks = (ops.map opChecks).flatten
    ∧ routeChecksAtRequest (applyOps ops) = (ops.map opChecks).flatten := by
  have h := foldl_applyOp_checks ops emptyBuilder
  rw [show emptyBuilder.checks = [] from rfl, List.nil_append] at h
  exact ⟨h, h⟩

end FastifyZod
